import Mathlib

/-!
Shallow embedding of generic/tclIndexObj.c: the keyword-index object type
(Tcl_GetIndexFromObjStruct, UpdateStringOfIndex) and the usage-message
builder (Tcl_WrongNumArgs), together with theorems settling the frozen
claims about this file.

Modelling conventions:
- A C string is a Lean String (byte-for-byte content up to the NUL).
- A table pointer is modelled by an abstract identity (a Nat), and the
  entries reachable through it are passed alongside (or, where the code
  dereferences a stored table pointer, through an environment
  tables : Nat -> List String).
- Tcl_Obj is modelled by its string form plus the optional index-type
  internal representation (objects of other internal types behave, for
  this file, exactly like objects with no internal rep).
- Return codes TCL_OK / TCL_ERROR are Int 0 / 1 as in tcl.h.
- The outcome record carries instrumentation fields observable in the C
  code: whether the table was scanned and whether a fresh IndexRep was
  allocated with ckalloc (the code reuses the existing record in place
  when the object is already of index type).
-/

def TCL_OK : Int := 0

def TCL_ERROR : Int := 1

/-- The IndexRep structure (tclIndexObj.c lines 50-54): table identity,
byte offset between entries, and the selected index. The stored index is
a Nat because every store on the success path is nonnegative. -/
structure IndexRep where
  tablePtr : Nat
  offset : Nat
  index : Nat
deriving Repr, DecidableEq

/-- A Tcl_Obj as this file observes it: its string form and its optional
index-type internal representation. -/
structure TclObj where
  bytes : String
  indexRep : Option IndexRep
deriving Repr, DecidableEq

/-- Outcome of the byte-by-byte comparison loop of one table entry against
the key (lines 217-234): exact match, abbreviation (key exhausted, entry
not), or no match. -/
inductive EntryMatch where
  | exact
  | abbr
  | miss
deriving Repr, DecidableEq, BEq

/-- The inner comparison loop (lines 217-222) followed by the
abbreviation test (line 223): walk both strings while bytes agree; if the
key ends inside the loop it equals the entry (exact); if the loop stops on
a mismatch and the key byte is NUL, the key is a strict prefix of the
entry (abbreviation); otherwise no match. -/
def compareEntry : List Char → List Char → EntryMatch
  | [], [] => .exact
  | [], _ :: _ => .abbr
  | _ :: _, [] => .miss
  | c1 :: r1, c2 :: r2 => if c1 = c2 then compareEntry r1 r2 else .miss

/-- Result of the scan loop (lines 215-235): exact match at index i
(short-circuit via goto done), or end of table with the abbreviation
counter and the last recorded abbreviation index (initially -1). -/
inductive ScanResult where
  | exact (i : Nat)
  | noExact (numAbbrev : Nat) (index : Int)
deriving Repr, DecidableEq

/-- The scan loop of Tcl_GetIndexFromObjStruct (lines 215-235), carrying
the loop counter i, numAbbrev and index exactly as the C code does. -/
def scanEntries (key : List Char) : List String → Nat → Nat → Int → ScanResult
  | [], _, numAbbrev, index => .noExact numAbbrev index
  | e :: rest, i, numAbbrev, index =>
    match compareEntry key e.data with
    | .exact => .exact i
    | .abbr => scanEntries key rest (i + 1) (numAbbrev + 1) (Int.ofNat i)
    | .miss => scanEntries key rest (i + 1) numAbbrev index

/-- The error-message loop tail (lines 276-287): entries after entry 0,
with the loop counter count; the last entry is preceded by ", or " when
count is positive and by " or " otherwise, every other entry by ", ". -/
def errorTail : List String → Nat → String
  | [], _ => ""
  | [e], count => (if count > 0 then ", or " else " or ") ++ e
  | e :: e2 :: rest, count => ", " ++ e ++ errorTail (e2 :: rest) (count + 1)

/-- The full error message produced at label error (lines 264-288):
"ambiguous " when numAbbrev exceeds 1, else "bad ", then the label, the
quoted key, ": must be ", entry 0, and the remaining entries. -/
def errorMessage (numAbbrev : Nat) (msg key : String) (entries : List String) : String :=
  (if numAbbrev > 1 then "ambiguous " else "bad ") ++ msg ++ " \"" ++ key ++
    "\": must be " ++ entries.headD "" ++ errorTail entries.tail 0

/-- Observable outcome of one Tcl_GetIndexFromObjStruct call: return
status, the index written through indexPtr, the object after the call,
the message written to the interpreter result (none when interp is NULL
or the call succeeds), and instrumentation: whether the scan loop ran and
whether a fresh IndexRep was allocated. -/
structure MatchOutcome where
  status : Int
  indexOut : Option Nat
  obj : TclObj
  errMsg : Option String
  scanned : Bool
  allocated : Bool
deriving Repr, DecidableEq

/-- The done label (lines 243-262): cache the found representation,
reusing the existing IndexRep in place when the object is already of
index type (no allocation), allocating a fresh record otherwise. -/
def mkSuccess (objPtr : TclObj) (tablePtr offset idx : Nat) : MatchOutcome :=
  { status := TCL_OK
    indexOut := some idx
    obj := { bytes := objPtr.bytes, indexRep := some ⟨tablePtr, offset, idx⟩ }
    errMsg := none
    scanned := true
    allocated := objPtr.indexRep.isNone }

/-- Tcl_GetIndexFromObjStruct past the cache check (lines 197-289): get
the key, reject the empty key before scanning, scan the table, apply the
TCL_EXACT / numAbbrev test, then cache the result or build the error. -/
def slowMatch (interp : Bool) (objPtr : TclObj) (tablePtr : Nat)
    (entries : List String) (offset : Nat) (msg : String) (exact : Bool) : MatchOutcome :=
  if objPtr.bytes = "" then
    { status := TCL_ERROR, indexOut := none, obj := objPtr
      errMsg := if interp then some (errorMessage 0 msg objPtr.bytes entries) else none
      scanned := false, allocated := false }
  else
    match scanEntries objPtr.bytes.data entries 0 0 (-1) with
    | .exact i => mkSuccess objPtr tablePtr offset i
    | .noExact numAbbrev index =>
      if exact || numAbbrev != 1 then
        { status := TCL_ERROR, indexOut := none, obj := objPtr
          errMsg := if interp then some (errorMessage numAbbrev msg objPtr.bytes entries) else none
          scanned := true, allocated := false }
      else mkSuccess objPtr tablePtr offset index.toNat

/-- Tcl_GetIndexFromObjStruct (lines 158-290). interp is modelled by
whether an interpreter was supplied (true = non-NULL). The fast path
(lines 184-190) returns the cached index when the stored table identity
and offset both equal the supplied ones. -/
def Tcl_GetIndexFromObjStruct (interp : Bool) (objPtr : TclObj) (tablePtr : Nat)
    (entries : List String) (offset : Nat) (msg : String) (exact : Bool) : MatchOutcome :=
  match objPtr.indexRep with
  | some rep =>
    if rep.tablePtr = tablePtr ∧ rep.offset = offset then
      { status := TCL_OK, indexOut := some rep.index, obj := objPtr
        errMsg := none, scanned := false, allocated := false }
    else slowMatch interp objPtr tablePtr entries offset msg exact
  | none => slowMatch interp objPtr tablePtr entries offset msg exact

/-- The supplied (table, offset) pair does not hit the cached rep: either
the object carries no index rep, or the stored identity differs. -/
def fastPathMiss (objPtr : TclObj) (tablePtr offset : Nat) : Prop :=
  ∀ rep, objPtr.indexRep = some rep → ¬(rep.tablePtr = tablePtr ∧ rep.offset = offset)

instance (objPtr : TclObj) (tablePtr offset : Nat) :
    Decidable (fastPathMiss objPtr tablePtr offset) := by
  unfold fastPathMiss
  cases objPtr.indexRep with
  | none => exact isTrue (by intro rep h; cases h)
  | some r =>
    by_cases h : r.tablePtr = tablePtr ∧ r.offset = offset
    · exact isFalse (by intro hall; exact hall r rfl h)
    · exact isTrue (by intro rep hr; cases Option.some.inj hr; exact h)

/-- UpdateStringOfIndex (lines 341-355): the string form becomes the
table entry at the stored index, read through the stored table pointer
(macro EXPAND_OF, lines 63-64). tables maps a table identity to the
entries reachable through it. -/
def UpdateStringOfIndex (tables : Nat → List String) (rep : IndexRep) : String :=
  (tables rep.tablePtr).getD rep.index ""

/-- key is a strict prefix of entry e: a prefix byte-for-byte, and not
equal to it (spec vocabulary for an abbreviation candidate). -/
def strictPrefixOfStr (k e : String) : Bool :=
  List.isPrefixOf k.data e.data && k != e

/-- How many table entries the key strictly prefixes. -/
def strictPrefixCount (k : String) (entries : List String) : Nat :=
  entries.countP (strictPrefixOfStr k)

/-- Closed tail for the entry enumeration after the first two entries:
each middle entry preceded by ", ", the last by ", or ". -/
def commaTail : List String → String
  | [] => ""
  | [e] => ", or " ++ e
  | e :: e2 :: rest => ", " ++ e ++ commaTail (e2 :: rest)

/-- Closed form of the "must be" enumeration: one entry stands alone, two
entries are joined by " or ", three or more use ", " before every middle
entry and ", or " before the last. -/
def renderMustBe : List String → String
  | [] => ""
  | [e0] => e0
  | [e0, e1] => e0 ++ " or " ++ e1
  | e0 :: e1 :: e2 :: rest => e0 ++ ", " ++ e1 ++ commaTail (e2 :: rest)

example : compareEntry "att".data "attach".data = .abbr := by decide
example : compareEntry "attach".data "attach".data = .exact := by decide
example : scanEntries "a".data ["ab", "a"] 0 0 (-1) = .exact 1 := by decide
example : errorMessage 0 "option" "x" ["apple", "banana", "cherry"] =
    "bad option \"x\": must be apple, banana, or cherry" := by decide
example :
    (Tcl_GetIndexFromObjStruct true ⟨"att", none⟩ 5 ["attach", "detach"] 1 "cmd" false).indexOut
      = some 0 := by decide

/-- The list-quoting collaborator (Tcl_ScanCountedElement and
Tcl_ConvertCountedElement, external to this file): whether a token needs
quoting to stay one list element, and its quoted bytes. The code detects
the need as the scanned length differing from the plain length. -/
structure Quoter where
  needsQuoting : String → Bool
  quote : String → String

/-- Interpreter state read by Tcl_WrongNumArgs: the current result (used
to seed the alternate form), the INTERP_ALTERNATE_WRONG_ARGS flag, and
the ensembleRewrite record (sourceObjs is NULL when absent). -/
structure InterpState where
  result : String
  altFlag : Bool
  rewriteSourceObjs : Option (List TclObj)
  numRemovedObjs : Nat
  numInsertedObjs : Nat

/-- One word as the quoting branch emits it (lines 498-507 and 546-555):
quoted when MAY_QUOTE_WORD holds (the word is not the first emitted one;
AVOID_HACKS_FOR_ITCL is not defined) and the collaborator reports a
length change, plain otherwise. -/
def quoteWord (q : Quoter) (isFirst : Bool) (s : String) : String :=
  if !isFirst && q.needsQuoting s then q.quote s else s

/-- One word of the argument loop (lines 537-556): an index-type object
emits EXPAND_OF, the canonical table entry at the cached index, with no
quoting; any other object emits its string form through the quoting
branch. -/
def argWord (q : Quoter) (tables : Nat → List String) (isFirst : Bool) (o : TclObj) : String :=
  match o.indexRep with
  | some rep => (tables rep.tablePtr).getD rep.index ""
  | none => quoteWord q isFirst o.bytes

/-- The ensemble-rewrite loop (lines 491-521): emit each source object
through the quoting branch, append a space when more source words remain
or arguments remain (objcAfter is the count left after the shift) or the
message pointer is non-NULL, and clear isFirst after each word. Returns
the accumulated text and the final isFirst. -/
def appendSourceWords (q : Quoter) : List TclObj → Bool → String → Bool → String × Bool
  | [], _, acc, isFirst => (acc, isFirst)
  | o :: rest, more, acc, isFirst =>
    let w := quoteWord q isFirst o.bytes
    let acc2 := acc ++ w
    let acc3 := if !rest.isEmpty || more then acc2 ++ " " else acc2
    appendSourceWords q rest more acc3 false

/-- The argument loop (lines 530-568): emit each argument word, append a
space when more arguments remain or the message pointer is non-NULL, and
clear isFirst after each word. -/
def appendArgWords (q : Quoter) (tables : Nat → List String) :
    List TclObj → Bool → String → Bool → String
  | [], _, acc, _ => acc
  | o :: rest, hasMsg, acc, isFirst =>
    let w := argWord q tables isFirst o
    let acc2 := acc ++ w
    let acc3 := if !rest.isEmpty || hasMsg then acc2 ++ " " else acc2
    appendArgWords q tables rest hasMsg acc3 false

/-- The message seed (lines 464-470): the current interpreter result
followed by a literal under the alternate flag, the plain literal
otherwise. -/
def seedOf (ip : InterpState) : String :=
  if ip.altFlag then ip.result ++ " or \"" else "wrong # args: should be \""

/-- Tcl_WrongNumArgs (lines 435-582). objv is the argument prefix (objc
is its length); message is NULL or the trailing text. The rewrite block
(lines 478-523) runs when sourceObjs is non-NULL and objc is at least
numInsertedObjs: it shifts objv by numInsertedObjs and emits the first
numRemovedObjs source objects. The returned string is what
Tcl_SetObjResult publishes. -/
def Tcl_WrongNumArgs (q : Quoter) (tables : Nat → List String) (ip : InterpState)
    (objv : List TclObj) (message : Option String) : String :=
  let seed := seedOf ip
  let afterRewrite : List TclObj × String × Bool :=
    match ip.rewriteSourceObjs with
    | some srcs =>
      if ip.numInsertedObjs ≤ objv.length then
        let objv2 := objv.drop ip.numInsertedObjs
        let p := appendSourceWords q (srcs.take ip.numRemovedObjs)
          (!objv2.isEmpty || message.isSome) seed true
        (objv2, p.1, p.2)
      else (objv, seed, true)
    | none => (objv, seed, true)
  let acc := appendArgWords q tables afterRewrite.1 message.isSome
    afterRewrite.2.1 afterRewrite.2.2
  let acc2 := match message with
    | some m => acc ++ m
    | none => acc
  acc2 ++ "\""

/-- Items emitted by Tcl_WrongNumArgs, in order: substituted rewrite
source objects, then remaining argument objects. -/
inductive EmitItem where
  | src (o : TclObj)
  | arg (o : TclObj)

/-- The items Tcl_WrongNumArgs emits for a given state and argument
prefix: with a rewrite in range, the first numRemovedObjs source objects
followed by the arguments past the first numInsertedObjs; otherwise just
the arguments. -/
def emitList (ip : InterpState) (objv : List TclObj) : List EmitItem :=
  match ip.rewriteSourceObjs with
  | some srcs =>
    if ip.numInsertedObjs ≤ objv.length then
      (srcs.take ip.numRemovedObjs).map EmitItem.src
        ++ (objv.drop ip.numInsertedObjs).map EmitItem.arg
    else objv.map EmitItem.arg
  | none => objv.map EmitItem.arg

/-- The text of one emitted item: source objects always go through the
quoting branch; argument objects follow argWord. -/
def itemWord (q : Quoter) (tables : Nat → List String) (isFirst : Bool) : EmitItem → String
  | .src o => quoteWord q isFirst o.bytes
  | .arg o => argWord q tables isFirst o

/-- The emitted words with the first-word flag threaded: the head is the
first word overall, every later word is not. -/
def wordsFrom (q : Quoter) (tables : Nat → List String) : Bool → List EmitItem → List String
  | _, [] => []
  | isFirst, x :: rest => itemWord q tables isFirst x :: wordsFrom q tables false rest

/-- Space-separated join of the emitted words. -/
def joinWords : List String → String
  | [] => ""
  | [w] => w
  | w :: w2 :: rest => w ++ " " ++ joinWords (w2 :: rest)

/-- The trailing-message part: nothing when message is NULL; otherwise a
separating space (when any word was emitted) followed by the message. -/
def msgTail (message : Option String) (words : List String) : String :=
  match message with
  | none => ""
  | some m => (if words.isEmpty then "" else " ") ++ m

/-- A concrete quoting collaborator for scenario checks: a token needs
quoting exactly when it contains a space, and quoting wraps it in
braces. -/
def spaceQuoter : Quoter :=
  { needsQuoting := fun s => s.data.any (fun c => c = ' ')
    quote := fun s => "\x7b" ++ s ++ "\x7d" }

example :
    Tcl_WrongNumArgs spaceQuoter (fun _ => []) ⟨"", false, none, 0, 0⟩
      [⟨"foo", none⟩, ⟨"bar", none⟩] (some "additional stuff")
      = "wrong # args: should be \"foo bar additional stuff\"" := by decide

example :
    Tcl_WrongNumArgs spaceQuoter (fun _ => []) ⟨"", false, none, 0, 0⟩
      [⟨"a b", none⟩] none = "wrong # args: should be \"a b\"" := by decide

example :
    Tcl_WrongNumArgs spaceQuoter (fun _ => []) ⟨"", false, none, 0, 0⟩
      [⟨"x", none⟩, ⟨"a b", none⟩] none = "wrong # args: should be \"x \x7ba b\x7d\"" := by
  decide

/-! Helper lemmas: the comparison loop versus equality and strict
prefixes, and closed characterizations of the scan loop. -/

theorem compareEntry_exact_iff (k : List Char) :
    ∀ e : List Char, compareEntry k e = EntryMatch.exact ↔ k = e := by
  induction k with
  | nil => intro e; cases e <;> simp [compareEntry]
  | cons c r ih =>
    intro e
    cases e with
    | nil => simp [compareEntry]
    | cons c2 r2 =>
      by_cases h : c = c2
      · subst h; simp [compareEntry, ih]
      · simp [compareEntry, h]

theorem compareEntry_abbr_iff (k : List Char) :
    ∀ e : List Char,
      compareEntry k e = EntryMatch.abbr ↔ (List.isPrefixOf k e = true ∧ k ≠ e) := by
  induction k with
  | nil =>
    intro e
    cases e with
    | nil => simp [compareEntry, List.isPrefixOf]
    | cons c2 r2 => simp [compareEntry, List.isPrefixOf]
  | cons c r ih =>
    intro e
    cases e with
    | nil => simp [compareEntry, List.isPrefixOf]
    | cons c2 r2 =>
      by_cases h : c = c2
      · subst h; simp [compareEntry, List.isPrefixOf, ih]
      · simp [compareEntry, List.isPrefixOf, h]

theorem compareEntry_abbr_iff_strict (k e : String) :
    compareEntry k.data e.data = EntryMatch.abbr ↔ strictPrefixOfStr k e = true := by
  rw [compareEntry_abbr_iff]
  simp [strictPrefixOfStr, bne_iff_ne, String.ext_iff]

theorem compareEntry_exact_iff_eq (k e : String) :
    compareEntry k.data e.data = EntryMatch.exact ↔ k = e := by
  rw [compareEntry_exact_iff, String.ext_iff]

theorem scanEntries_all_miss (key : List Char) :
    ∀ (entries : List String) (i n : Nat) (a : Int),
      (∀ e ∈ entries, compareEntry key e.data = EntryMatch.miss) →
      scanEntries key entries i n a = ScanResult.noExact n a := by
  intro entries
  induction entries with
  | nil => intro i n a _; rfl
  | cons e rest ih =>
    intro i n a h
    have he := h e (List.mem_cons_self e rest)
    simp only [scanEntries, he]
    exact ih (i + 1) n a (fun x hx => h x (List.mem_cons_of_mem e hx))

theorem scanEntries_of_no_exact (key : List Char) :
    ∀ (entries : List String) (i n : Nat) (a : Int),
      (∀ e ∈ entries, compareEntry key e.data ≠ EntryMatch.exact) →
      ∃ idx : Int,
        scanEntries key entries i n a =
          ScanResult.noExact
            (n + entries.countP (fun e => compareEntry key e.data == EntryMatch.abbr)) idx := by
  intro entries
  induction entries with
  | nil => intro i n a _; exact ⟨a, by simp [scanEntries]⟩
  | cons e rest ih =>
    intro i n a h
    have he := h e (List.mem_cons_self e rest)
    have hrest : ∀ x ∈ rest, compareEntry key x.data ≠ EntryMatch.exact :=
      fun x hx => h x (List.mem_cons_of_mem e hx)
    cases hc : compareEntry key e.data with
    | exact => exact absurd hc he
    | abbr =>
      obtain ⟨idx, hidx⟩ := ih (i + 1) (n + 1) (Int.ofNat i) hrest
      refine ⟨idx, ?_⟩
      have hcnt : List.countP (fun x => compareEntry key x.data == EntryMatch.abbr) (e :: rest)
          = List.countP (fun x => compareEntry key x.data == EntryMatch.abbr) rest + 1 := by
        rw [List.countP_cons]
        simp [hc, show (EntryMatch.abbr == EntryMatch.abbr) = true from rfl]
      simp only [scanEntries, hc]
      rw [hidx, hcnt]
      congr 1
      omega
    | miss =>
      obtain ⟨idx, hidx⟩ := ih (i + 1) n a hrest
      refine ⟨idx, ?_⟩
      have hcnt : List.countP (fun x => compareEntry key x.data == EntryMatch.abbr) (e :: rest)
          = List.countP (fun x => compareEntry key x.data == EntryMatch.abbr) rest := by
        rw [List.countP_cons]
        simp [hc, show (EntryMatch.miss == EntryMatch.abbr) = false from rfl]
      simp only [scanEntries, hc]
      rw [hidx, hcnt]

theorem scanEntries_noExact_inv (key : List Char) :
    ∀ (entries : List String) (i n : Nat) (a : Int) (nA : Nat) (idx : Int),
      scanEntries key entries i n a = ScanResult.noExact nA idx →
      ∀ e ∈ entries, compareEntry key e.data ≠ EntryMatch.exact := by
  intro entries
  induction entries with
  | nil => intro i n a nA idx _ e he; cases he
  | cons e rest ih =>
    intro i n a nA idx hscan x hx
    cases hc : compareEntry key e.data with
    | exact =>
      simp only [scanEntries, hc] at hscan
      cases hscan
    | abbr =>
      simp only [scanEntries, hc] at hscan
      cases hx with
      | head => simp [hc]
      | tail _ hmem => exact ih (i + 1) (n + 1) (Int.ofNat i) nA idx hscan x hmem
    | miss =>
      simp only [scanEntries, hc] at hscan
      cases hx with
      | head => simp [hc]
      | tail _ hmem => exact ih (i + 1) n a nA idx hscan x hmem

theorem scanEntries_exact_at (key : List Char) :
    ∀ (entries : List String) (j i n : Nat) (a : Int) (hj : j < entries.length),
      compareEntry key (entries.get ⟨j, hj⟩).data = EntryMatch.exact →
      (∀ (m : Nat) (hm : m < entries.length),
        m < j → compareEntry key (entries.get ⟨m, hm⟩).data ≠ EntryMatch.exact) →
      scanEntries key entries i n a = ScanResult.exact (i + j) := by
  intro entries
  induction entries with
  | nil => intro j i n a hj; cases hj
  | cons e rest ih =>
    intro j i n a hj hx hfirst
    cases j with
    | zero =>
      have he : compareEntry key e.data = EntryMatch.exact := hx
      simp [scanEntries, he]
    | succ j' =>
      have h0 : compareEntry key e.data ≠ EntryMatch.exact :=
        hfirst 0 (Nat.succ_pos _) (Nat.succ_pos _)
      have hj' : j' < rest.length := Nat.lt_of_succ_lt_succ hj
      have hxr : compareEntry key (rest.get ⟨j', hj'⟩).data = EntryMatch.exact := by
        simpa [List.get] using hx
      have hfr : ∀ (m : Nat) (hm : m < rest.length),
          m < j' → compareEntry key (rest.get ⟨m, hm⟩).data ≠ EntryMatch.exact := by
        intro m hm hmj
        have := hfirst (m + 1) (Nat.succ_lt_succ hm) (Nat.succ_lt_succ hmj)
        simpa [List.get] using this
      have harith : (i + 1) + j' = i + (j' + 1) := by omega
      cases hc : compareEntry key e.data with
      | exact => exact absurd hc h0
      | abbr =>
        simp only [scanEntries, hc]
        rw [ih j' (i + 1) (n + 1) (Int.ofNat i) hj' hxr hfr, harith]
      | miss =>
        simp only [scanEntries, hc]
        rw [ih j' (i + 1) n a hj' hxr hfr, harith]

theorem scanEntries_single_abbr (key : List Char) :
    ∀ (entries : List String) (j i n : Nat) (a : Int) (hj : j < entries.length),
      compareEntry key (entries.get ⟨j, hj⟩).data = EntryMatch.abbr →
      (∀ (m : Nat) (hm : m < entries.length),
        m ≠ j → compareEntry key (entries.get ⟨m, hm⟩).data = EntryMatch.miss) →
      scanEntries key entries i n a = ScanResult.noExact (n + 1) (Int.ofNat (i + j)) := by
  intro entries
  induction entries with
  | nil => intro j i n a hj; cases hj
  | cons e rest ih =>
    intro j i n a hj hab hrest
    cases j with
    | zero =>
      have he : compareEntry key e.data = EntryMatch.abbr := hab
      have hnom : ∀ x ∈ rest, compareEntry key x.data = EntryMatch.miss := by
        intro x hx
        obtain ⟨⟨mv, hmv⟩, hget⟩ := List.mem_iff_get.mp hx
        have h := hrest (mv + 1) (Nat.succ_lt_succ hmv) (Nat.succ_ne_zero mv)
        rw [← hget]
        simpa [List.get] using h
      simp only [scanEntries, he]
      rw [scanEntries_all_miss key rest (i + 1) (n + 1) (Int.ofNat i) hnom]
      simp
    | succ j' =>
      have h0 : compareEntry key e.data = EntryMatch.miss :=
        hrest 0 (Nat.succ_pos _) (by omega)
      have hj' : j' < rest.length := Nat.lt_of_succ_lt_succ hj
      have habr : compareEntry key (rest.get ⟨j', hj'⟩).data = EntryMatch.abbr := by
        simpa [List.get] using hab
      have hrr : ∀ (m : Nat) (hm : m < rest.length),
          m ≠ j' → compareEntry key (rest.get ⟨m, hm⟩).data = EntryMatch.miss := by
        intro m hm hmj
        have := hrest (m + 1) (Nat.succ_lt_succ hm) (by omega)
        simpa [List.get] using this
      simp only [scanEntries, h0]
      rw [ih j' (i + 1) n a hj' habr hrr]
      have harith : i + 1 + j' = i + (j' + 1) := by omega
      rw [harith]

theorem countP_one_extract {α : Type} (p : α → Bool) :
    ∀ l : List α, l.countP p = 1 →
      ∃ (j : Nat) (hj : j < l.length), p (l.get ⟨j, hj⟩) = true ∧
        ∀ (m : Nat) (hm : m < l.length), p (l.get ⟨m, hm⟩) = true → m = j := by
  intro l
  induction l with
  | nil => intro h; rw [List.countP_nil] at h; omega
  | cons a l ih =>
    intro h
    rw [List.countP_cons] at h
    by_cases hpa : p a = true
    · have h1 : l.countP p + 1 = 1 := by rw [hpa] at h; simpa using h
      have hl0 : l.countP p = 0 := by omega
      refine ⟨0, Nat.succ_pos _, hpa, ?_⟩
      intro m hm hpm
      cases m with
      | zero => rfl
      | succ m2 =>
        have hm2 : m2 < l.length := Nat.lt_of_succ_lt_succ hm
        have hp2 : p (l.get ⟨m2, hm2⟩) = true := by simpa [List.get] using hpm
        have hmem := List.get_mem l m2 hm2
        exact absurd hp2 (List.countP_eq_zero.mp hl0 _ hmem)
    · have hfalse : p a = false := Bool.not_eq_true (p a) ▸ eq_false_of_ne_true hpa
      have hl1 : l.countP p = 1 := by rw [hfalse] at h; simpa using h
      obtain ⟨j, hj, hpj, huniq⟩ := ih hl1
      refine ⟨j + 1, Nat.succ_lt_succ hj, by simpa [List.get] using hpj, ?_⟩
      intro m hm hpm
      cases m with
      | zero => exact absurd hpm hpa
      | succ m2 =>
        have hm2 : m2 < l.length := Nat.lt_of_succ_lt_succ hm
        have hp2 : p (l.get ⟨m2, hm2⟩) = true := by simpa [List.get] using hpm
        have := huniq m2 hm2 hp2
        omega

theorem getD_eq_get_of_lt {α : Type} :
    ∀ (l : List α) (d : α) (n : Nat) (h : n < l.length), l.getD n d = l.get ⟨n, h⟩ := by
  intro l
  induction l with
  | nil => intro d n h; cases h
  | cons a t ih =>
    intro d n h
    cases n with
    | zero => rfl
    | succ n2 => exact ih d n2 (Nat.lt_of_succ_lt_succ h)

/-- With a cache miss, the full call reduces to the slow path. -/
theorem match_eq_slow_of_miss (interp : Bool) (objPtr : TclObj) (tablePtr : Nat)
    (entries : List String) (offset : Nat) (msg : String) (exact : Bool)
    (h : fastPathMiss objPtr tablePtr offset) :
    Tcl_GetIndexFromObjStruct interp objPtr tablePtr entries offset msg exact
      = slowMatch interp objPtr tablePtr entries offset msg exact := by
  unfold Tcl_GetIndexFromObjStruct
  cases hrep : objPtr.indexRep with
  | none => rfl
  | some r => exact if_neg (h r hrep)

/-- The abbreviation counter predicate counts exactly the entries the key
strictly prefixes. -/
theorem abbrCount_eq_strictPrefixCount (k : String) (entries : List String) :
    entries.countP (fun e => compareEntry k.data e.data == EntryMatch.abbr)
      = strictPrefixCount k entries := by
  unfold strictPrefixCount
  congr 1
  funext e
  by_cases hsp : strictPrefixOfStr k e = true
  · rw [hsp, (compareEntry_abbr_iff_strict k e).mpr hsp]
    rfl
  · have hne : compareEntry k.data e.data ≠ EntryMatch.abbr :=
      fun hc => hsp ((compareEntry_abbr_iff_strict k e).mp hc)
    have hfalse : strictPrefixOfStr k e = false :=
      Bool.not_eq_true (strictPrefixOfStr k e) ▸ eq_false_of_ne_true hsp
    rw [hfalse]
    cases hc : compareEntry k.data e.data with
    | exact => rfl
    | abbr => exact absurd hc hne
    | miss => rfl

theorem errorTail_pos : ∀ (l : List String) (c : Nat), 0 < c → errorTail l c = commaTail l := by
  intro l
  induction l with
  | nil => intro c _; rfl
  | cons e rest ih =>
    intro c hc
    cases rest with
    | nil =>
      show (if c > 0 then ", or " else " or ") ++ e = ", or " ++ e
      rw [if_pos hc]
    | cons e2 r2 =>
      show ", " ++ e ++ errorTail (e2 :: r2) (c + 1) = ", " ++ e ++ commaTail (e2 :: r2)
      rw [ih (c + 1) (Nat.succ_pos c)]

/-- The code-shaped error message equals its closed form. -/
theorem errorMessage_eq_render (numAbbrev : Nat) (msg key : String) (entries : List String) :
    errorMessage numAbbrev msg key entries =
      (if numAbbrev > 1 then "ambiguous " else "bad ") ++ msg ++ " \"" ++ key ++
        "\": must be " ++ renderMustBe entries := by
  unfold errorMessage
  rw [String.append_assoc]
  congr 1
  cases entries with
  | nil => rfl
  | cons e0 rest =>
    cases rest with
    | nil => simp [errorTail, renderMustBe]
    | cons e1 rest2 =>
      cases rest2 with
      | nil => simp [errorTail, renderMustBe, String.append_assoc]
      | cons e2 rest3 =>
        have h1 : errorTail (e2 :: rest3) 1 = commaTail (e2 :: rest3) :=
          errorTail_pos (e2 :: rest3) 1 Nat.one_pos
        simp [errorTail, renderMustBe, h1, String.append_assoc]


/-! Branch equations of the two match functions, for rewriting. -/

theorem slowMatch_empty (interp : Bool) (objPtr : TclObj) (tablePtr : Nat)
    (entries : List String) (offset : Nat) (msg : String) (exact : Bool)
    (hk : objPtr.bytes = "") :
    slowMatch interp objPtr tablePtr entries offset msg exact =
      { status := TCL_ERROR, indexOut := none, obj := objPtr
        errMsg := if interp then some (errorMessage 0 msg objPtr.bytes entries) else none
        scanned := false, allocated := false } := by
  unfold slowMatch
  exact if_pos hk

theorem slowMatch_scan_exact (interp : Bool) (objPtr : TclObj) (tablePtr : Nat)
    (entries : List String) (offset : Nat) (msg : String) (exact : Bool) (i : Nat)
    (hk : objPtr.bytes ≠ "")
    (hscan : scanEntries objPtr.bytes.data entries 0 0 (-1) = ScanResult.exact i) :
    slowMatch interp objPtr tablePtr entries offset msg exact
      = mkSuccess objPtr tablePtr offset i := by
  unfold slowMatch
  rw [if_neg hk, hscan]

theorem slowMatch_scan_fail (interp : Bool) (objPtr : TclObj) (tablePtr : Nat)
    (entries : List String) (offset : Nat) (msg : String) (exact : Bool)
    (nA : Nat) (idx : Int)
    (hk : objPtr.bytes ≠ "")
    (hscan : scanEntries objPtr.bytes.data entries 0 0 (-1) = ScanResult.noExact nA idx)
    (hcond : (exact || nA != 1) = true) :
    slowMatch interp objPtr tablePtr entries offset msg exact =
      { status := TCL_ERROR, indexOut := none, obj := objPtr
        errMsg := if interp then some (errorMessage nA msg objPtr.bytes entries) else none
        scanned := true, allocated := false } := by
  unfold slowMatch
  rw [if_neg hk, hscan]
  exact if_pos hcond

theorem slowMatch_scan_ok (interp : Bool) (objPtr : TclObj) (tablePtr : Nat)
    (entries : List String) (offset : Nat) (msg : String) (exact : Bool)
    (nA : Nat) (idx : Int)
    (hk : objPtr.bytes ≠ "")
    (hscan : scanEntries objPtr.bytes.data entries 0 0 (-1) = ScanResult.noExact nA idx)
    (hcond : (exact || nA != 1) = false) :
    slowMatch interp objPtr tablePtr entries offset msg exact
      = mkSuccess objPtr tablePtr offset idx.toNat := by
  unfold slowMatch
  rw [if_neg hk, hscan]
  exact if_neg (by simp [hcond])

theorem match_eq_cached (interp : Bool) (objPtr : TclObj) (tablePtr : Nat)
    (entries : List String) (offset : Nat) (msg : String) (exact : Bool) (rep : IndexRep)
    (hrep : objPtr.indexRep = some rep)
    (hcond : rep.tablePtr = tablePtr ∧ rep.offset = offset) :
    Tcl_GetIndexFromObjStruct interp objPtr tablePtr entries offset msg exact =
      { status := TCL_OK, indexOut := some rep.index, obj := objPtr
        errMsg := none, scanned := false, allocated := false } := by
  unfold Tcl_GetIndexFromObjStruct
  rw [hrep]
  exact if_pos hcond

/-- Every success of the slow path stores the supplied (table, offset)
with the returned index in the cache record. -/
theorem slowMatch_success_shape (interp : Bool) (objPtr : TclObj) (tablePtr : Nat)
    (entries : List String) (offset : Nat) (msg : String) (exact : Bool)
    (h : (slowMatch interp objPtr tablePtr entries offset msg exact).status = TCL_OK) :
    ∃ i, (slowMatch interp objPtr tablePtr entries offset msg exact).indexOut = some i ∧
      (slowMatch interp objPtr tablePtr entries offset msg exact).obj.indexRep
        = some ⟨tablePtr, offset, i⟩ := by
  by_cases hk : objPtr.bytes = ""
  · rw [slowMatch_empty interp objPtr tablePtr entries offset msg exact hk] at h
    exact absurd h (by simp [TCL_OK, TCL_ERROR])
  · cases hscan : scanEntries objPtr.bytes.data entries 0 0 (-1) with
    | exact i =>
      rw [slowMatch_scan_exact interp objPtr tablePtr entries offset msg exact i hk hscan]
      exact ⟨i, rfl, rfl⟩
    | noExact nA idx =>
      by_cases hcond : (exact || nA != 1) = true
      · rw [slowMatch_scan_fail interp objPtr tablePtr entries offset msg exact
          nA idx hk hscan hcond] at h
        exact absurd h (by simp [TCL_OK, TCL_ERROR])
      · rw [slowMatch_scan_ok interp objPtr tablePtr entries offset msg exact
          nA idx hk hscan (by simpa using hcond)]
        exact ⟨idx.toNat, rfl, rfl⟩

/-- Every success stores the supplied (table, offset) with the returned
index in the cache record. -/
theorem match_success_shape (interp : Bool) (objPtr : TclObj) (tablePtr : Nat)
    (entries : List String) (offset : Nat) (msg : String) (exact : Bool)
    (h : (Tcl_GetIndexFromObjStruct interp objPtr tablePtr entries offset msg exact).status
      = TCL_OK) :
    ∃ i, (Tcl_GetIndexFromObjStruct interp objPtr tablePtr entries offset msg exact).indexOut
        = some i ∧
      (Tcl_GetIndexFromObjStruct interp objPtr tablePtr entries offset msg exact).obj.indexRep
        = some ⟨tablePtr, offset, i⟩ := by
  by_cases hmiss : fastPathMiss objPtr tablePtr offset
  · rw [match_eq_slow_of_miss interp objPtr tablePtr entries offset msg exact hmiss] at h ⊢
    exact slowMatch_success_shape interp objPtr tablePtr entries offset msg exact h
  · unfold fastPathMiss at hmiss
    push_neg at hmiss
    obtain ⟨rep, hrep, hcond⟩ := hmiss
    rw [match_eq_cached interp objPtr tablePtr entries offset msg exact rep hrep hcond]
    refine ⟨rep.index, rfl, ?_⟩
    obtain ⟨h1, h2⟩ := hcond
    rw [hrep]
    cases rep
    simp_all

/-- Claim C1, counterexample to the claim as stated: a table may contain
the empty string as an entry (the data model only requires non-null,
distinct entries); a value whose string form is empty then equals that
entry byte-for-byte, yet the call fails, because the empty key is
rejected before the scan (line 205). -/
theorem c1_counterexample :
    (⟨"", none⟩ : TclObj).bytes ∈ [""] ∧
    (Tcl_GetIndexFromObjStruct true ⟨"", none⟩ 0 [""] 1 "option" false).status = TCL_ERROR := by
  decide

/-- Claim C1 (amended: the matching input must be non-empty; the table
invariant of distinct entries is assumed, and the value carries no cache
record for the supplied table identity): when the string form of the
value equals a table entry byte-for-byte, the call succeeds with that
entry index, even when the string is a strict prefix of other entries:
the scan short-circuits at the exact match and never prefers an
abbreviation found earlier. -/
theorem c1_exact_match_wins (interp : Bool) (objPtr : TclObj) (tablePtr : Nat)
    (entries : List String) (offset : Nat) (msg : String) (exact : Bool)
    (j : Nat) (hj : j < entries.length)
    (hmiss : fastPathMiss objPtr tablePtr offset)
    (hne : objPtr.bytes ≠ "")
    (hkey : entries.get ⟨j, hj⟩ = objPtr.bytes)
    (hnodup : entries.Nodup) :
    (Tcl_GetIndexFromObjStruct interp objPtr tablePtr entries offset msg exact).status = TCL_OK ∧
    (Tcl_GetIndexFromObjStruct interp objPtr tablePtr entries offset msg exact).indexOut
      = some j := by
  rw [match_eq_slow_of_miss interp objPtr tablePtr entries offset msg exact hmiss]
  have hxj : compareEntry objPtr.bytes.data (entries.get ⟨j, hj⟩).data = EntryMatch.exact := by
    rw [compareEntry_exact_iff_eq]
    exact hkey.symm
  have hfirst : ∀ (m : Nat) (hm : m < entries.length), m < j →
      compareEntry objPtr.bytes.data (entries.get ⟨m, hm⟩).data ≠ EntryMatch.exact := by
    intro m hm hmj hcontra
    rw [compareEntry_exact_iff_eq] at hcontra
    rw [hcontra] at hkey
    have hfin := hnodup.get_inj_iff.mp hkey
    have : j = m := by simpa using congrArg Fin.val hfin
    omega
  have hscan := scanEntries_exact_at objPtr.bytes.data entries j 0 0 (-1) hj hxj hfirst
  rw [Nat.zero_add] at hscan
  rw [slowMatch_scan_exact interp objPtr tablePtr entries offset msg exact j hne hscan]
  exact ⟨rfl, rfl⟩

theorem c1_witness :
    fastPathMiss ⟨"a", none⟩ 0 1 ∧ ("a" : String) ≠ "" ∧
    (["ab", "a"] : List String).Nodup ∧
    (Tcl_GetIndexFromObjStruct true ⟨"a", none⟩ 0 ["ab", "a"] 1 "option" false).status
      = TCL_OK ∧
    (Tcl_GetIndexFromObjStruct true ⟨"a", none⟩ 0 ["ab", "a"] 1 "option" false).indexOut
      = some 1 :=
  ⟨by decide, by decide, by decide,
    (c1_exact_match_wins true ⟨"a", none⟩ 0 ["ab", "a"] 1 "option" false 1 (by decide)
      (by decide) (by decide) (by decide) (by decide)).1,
    (c1_exact_match_wins true ⟨"a", none⟩ 0 ["ab", "a"] 1 "option" false 1 (by decide)
      (by decide) (by decide) (by decide) (by decide)).2⟩

/-- Claim C2: for a non-empty key equal to no entry (and no cache hit for
the supplied table identity), the call succeeds exactly when the key is a
strict prefix of exactly one entry and TCL_EXACT was not supplied, and
then returns that entry index; with zero or two-or-more strict-prefix
candidates, or with TCL_EXACT supplied, it fails with TCL_ERROR. -/
theorem c2_abbrev_rule (interp : Bool) (objPtr : TclObj) (tablePtr : Nat)
    (entries : List String) (offset : Nat) (msg : String) (exact : Bool)
    (hmiss : fastPathMiss objPtr tablePtr offset)
    (hne : objPtr.bytes ≠ "")
    (hnoeq : ∀ e ∈ entries, e ≠ objPtr.bytes) :
    ((exact = false ∧ strictPrefixCount objPtr.bytes entries = 1) →
      (Tcl_GetIndexFromObjStruct interp objPtr tablePtr entries offset msg exact).status
        = TCL_OK ∧
      ∃ (j : Nat) (hj : j < entries.length),
        (Tcl_GetIndexFromObjStruct interp objPtr tablePtr entries offset msg exact).indexOut
          = some j ∧
        strictPrefixOfStr objPtr.bytes (entries.get ⟨j, hj⟩) = true) ∧
    ((exact = true ∨ strictPrefixCount objPtr.bytes entries ≠ 1) →
      (Tcl_GetIndexFromObjStruct interp objPtr tablePtr entries offset msg exact).status
        = TCL_ERROR) := by
  rw [match_eq_slow_of_miss interp objPtr tablePtr entries offset msg exact hmiss]
  have hnoex : ∀ e ∈ entries, compareEntry objPtr.bytes.data e.data ≠ EntryMatch.exact := by
    intro e he hc
    rw [compareEntry_exact_iff_eq] at hc
    exact hnoeq e he hc.symm
  constructor
  · rintro ⟨hex, hcnt⟩
    subst hex
    obtain ⟨j, hj, hpj, huniq⟩ :=
      countP_one_extract (strictPrefixOfStr objPtr.bytes) entries hcnt
    have hmiss_all : ∀ (m : Nat) (hm : m < entries.length), m ≠ j →
        compareEntry objPtr.bytes.data (entries.get ⟨m, hm⟩).data = EntryMatch.miss := by
      intro m hm hmj
      cases hcm : compareEntry objPtr.bytes.data (entries.get ⟨m, hm⟩).data with
      | exact => exact absurd hcm (hnoex _ (List.get_mem entries m hm))
      | abbr =>
        exact absurd (huniq m hm ((compareEntry_abbr_iff_strict _ _).mp hcm)) hmj
      | miss => rfl
    have habj : compareEntry objPtr.bytes.data (entries.get ⟨j, hj⟩).data = EntryMatch.abbr :=
      (compareEntry_abbr_iff_strict _ _).mpr hpj
    have hscan := scanEntries_single_abbr objPtr.bytes.data entries j 0 0 (-1) hj habj hmiss_all
    rw [Nat.zero_add, Nat.zero_add] at hscan
    rw [slowMatch_scan_ok interp objPtr tablePtr entries offset msg false 1 (Int.ofNat j)
      hne hscan (by simp)]
    exact ⟨rfl, j, hj, by simp [mkSuccess], hpj⟩
  · intro hfail
    obtain ⟨idx, hscan⟩ := scanEntries_of_no_exact objPtr.bytes.data entries 0 0 (-1) hnoex
    rw [Nat.zero_add, abbrCount_eq_strictPrefixCount] at hscan
    have hcond : (exact || strictPrefixCount objPtr.bytes entries != 1) = true := by
      cases hfail with
      | inl h => simp [h]
      | inr h => simp [bne_iff_ne, h]
    rw [slowMatch_scan_fail interp objPtr tablePtr entries offset msg exact
      (strictPrefixCount objPtr.bytes entries) idx hne hscan hcond]

theorem c2_witness :
    fastPathMiss ⟨"att", none⟩ 0 1 ∧ ("att" : String) ≠ "" ∧
    (∀ e ∈ (["attach", "detach"] : List String), e ≠ "att") ∧
    strictPrefixCount "att" ["attach", "detach"] = 1 ∧
    (Tcl_GetIndexFromObjStruct true ⟨"att", none⟩ 0 ["attach", "detach"] 1 "option" false).status
      = TCL_OK ∧
    (Tcl_GetIndexFromObjStruct true ⟨"att", none⟩ 0 ["attach", "detach"] 1 "option" true).status
      = TCL_ERROR :=
  ⟨by decide, by decide, by decide, by decide,
    ((c2_abbrev_rule true ⟨"att", none⟩ 0 ["attach", "detach"] 1 "option" false
      (by decide) (by decide) (by decide)).1 ⟨rfl, by decide⟩).1,
    (c2_abbrev_rule true ⟨"att", none⟩ 0 ["attach", "detach"] 1 "option" true
      (by decide) (by decide) (by decide)).2 (Or.inl rfl)⟩

/-- Claim C6: a value whose string form is empty (and which carries no
cache record for the supplied table identity) always fails with
TCL_ERROR and a "bad" message, and the emptiness check fires before any
table entry is scanned, so no entry is reported as matching. -/
theorem c6_empty_key_fails (interp : Bool) (objPtr : TclObj) (tablePtr : Nat)
    (entries : List String) (offset : Nat) (msg : String) (exact : Bool)
    (hmiss : fastPathMiss objPtr tablePtr offset)
    (hb : objPtr.bytes = "") :
    (Tcl_GetIndexFromObjStruct interp objPtr tablePtr entries offset msg exact).status
      = TCL_ERROR ∧
    (Tcl_GetIndexFromObjStruct interp objPtr tablePtr entries offset msg exact).scanned
      = false ∧
    (Tcl_GetIndexFromObjStruct interp objPtr tablePtr entries offset msg exact).indexOut
      = none ∧
    (interp = true →
      (Tcl_GetIndexFromObjStruct interp objPtr tablePtr entries offset msg exact).errMsg
        = some ("bad " ++ msg ++ " \"" ++ objPtr.bytes ++ "\": must be "
            ++ renderMustBe entries)) := by
  rw [match_eq_slow_of_miss interp objPtr tablePtr entries offset msg exact hmiss,
    slowMatch_empty interp objPtr tablePtr entries offset msg exact hb]
  refine ⟨rfl, rfl, rfl, ?_⟩
  intro hi
  subst hi
  simp [errorMessage_eq_render]

theorem c6_witness :
    fastPathMiss ⟨"", none⟩ 0 1 ∧
    (Tcl_GetIndexFromObjStruct true ⟨"", none⟩ 0 ["apple", "banana"] 1 "option" false).status
      = TCL_ERROR ∧
    (Tcl_GetIndexFromObjStruct true ⟨"", none⟩ 0 ["apple", "banana"] 1 "option" false).scanned
      = false ∧
    (Tcl_GetIndexFromObjStruct true ⟨"", none⟩ 0 ["apple", "banana"] 1 "option" false).errMsg
      = some ("bad " ++ "option" ++ " \"" ++ "" ++ "\": must be "
          ++ renderMustBe ["apple", "banana"]) :=
  ⟨by decide,
    (c6_empty_key_fails true ⟨"", none⟩ 0 ["apple", "banana"] 1 "option" false
      (by decide) rfl).1,
    (c6_empty_key_fails true ⟨"", none⟩ 0 ["apple", "banana"] 1 "option" false
      (by decide) rfl).2.1,
    (c6_empty_key_fails true ⟨"", none⟩ 0 ["apple", "banana"] 1 "option" false
      (by decide) rfl).2.2.2 rfl⟩

/-- Claim C10: every failing call leaves the value argument unchanged
(string form, type tag and any cached record, including one cached
against a different table), writes nothing but the interpreter result,
allocates nothing, and writes nothing at all when interp is NULL. -/
theorem c10_error_no_mutation (interp : Bool) (objPtr : TclObj) (tablePtr : Nat)
    (entries : List String) (offset : Nat) (msg : String) (exact : Bool)
    (h : (Tcl_GetIndexFromObjStruct interp objPtr tablePtr entries offset msg exact).status
      = TCL_ERROR) :
    (Tcl_GetIndexFromObjStruct interp objPtr tablePtr entries offset msg exact).obj = objPtr ∧
    (Tcl_GetIndexFromObjStruct interp objPtr tablePtr entries offset msg exact).indexOut
      = none ∧
    (Tcl_GetIndexFromObjStruct interp objPtr tablePtr entries offset msg exact).allocated
      = false ∧
    (interp = false →
      (Tcl_GetIndexFromObjStruct interp objPtr tablePtr entries offset msg exact).errMsg
        = none) := by
  by_cases hmiss : fastPathMiss objPtr tablePtr offset
  · rw [match_eq_slow_of_miss interp objPtr tablePtr entries offset msg exact hmiss] at h ⊢
    by_cases hk : objPtr.bytes = ""
    · rw [slowMatch_empty interp objPtr tablePtr entries offset msg exact hk]
      refine ⟨rfl, rfl, rfl, ?_⟩
      intro hi
      subst hi
      rfl
    · cases hscan : scanEntries objPtr.bytes.data entries 0 0 (-1) with
      | exact i =>
        rw [slowMatch_scan_exact interp objPtr tablePtr entries offset msg exact i hk hscan] at h
        exact absurd h (by simp [mkSuccess, TCL_OK, TCL_ERROR])
      | noExact nA idx =>
        by_cases hcond : (exact || nA != 1) = true
        · rw [slowMatch_scan_fail interp objPtr tablePtr entries offset msg exact
            nA idx hk hscan hcond]
          refine ⟨rfl, rfl, rfl, ?_⟩
          intro hi
          subst hi
          rfl
        · rw [slowMatch_scan_ok interp objPtr tablePtr entries offset msg exact
            nA idx hk hscan (by simpa using hcond)] at h
          exact absurd h (by simp [mkSuccess, TCL_OK, TCL_ERROR])
  · unfold fastPathMiss at hmiss
    push_neg at hmiss
    obtain ⟨rep, hrep, hcond⟩ := hmiss
    rw [match_eq_cached interp objPtr tablePtr entries offset msg exact rep hrep hcond] at h
    exact absurd h (by simp [TCL_OK, TCL_ERROR])

theorem c10_witness :
    (Tcl_GetIndexFromObjStruct false ⟨"zz", some ⟨7, 4, 2⟩⟩ 0 ["a", "b"] 1 "option" false).status
      = TCL_ERROR ∧
    (Tcl_GetIndexFromObjStruct false ⟨"zz", some ⟨7, 4, 2⟩⟩ 0 ["a", "b"] 1 "option" false).obj
      = ⟨"zz", some ⟨7, 4, 2⟩⟩ ∧
    (Tcl_GetIndexFromObjStruct false ⟨"zz", some ⟨7, 4, 2⟩⟩ 0 ["a", "b"] 1 "option" false).errMsg
      = none :=
  ⟨by decide,
    (c10_error_no_mutation false ⟨"zz", some ⟨7, 4, 2⟩⟩ 0 ["a", "b"] 1 "option" false
      (by decide)).1,
    (c10_error_no_mutation false ⟨"zz", some ⟨7, 4, 2⟩⟩ 0 ["a", "b"] 1 "option" false
      (by decide)).2.2.2 rfl⟩

/-- Claim C4: every failing call with an interpreter supplied produces
exactly the message <bad or ambiguous> <label> "<key>": must be followed
by every table entry in table order; "ambiguous" is used exactly when
more than one abbreviation matched (and, the call having failed, none
matched exactly), "bad" when zero candidates matched; entry 0 follows
"must be " with no separator, each middle entry is preceded by ", ", and
the last entry by " or " (with the Oxford comma, ", or ", as soon as the
table has at least three entries). -/
theorem c4_error_message (objPtr : TclObj) (tablePtr : Nat) (entries : List String)
    (offset : Nat) (msg : String) (exact : Bool)
    (h : (Tcl_GetIndexFromObjStruct true objPtr tablePtr entries offset msg exact).status
      = TCL_ERROR) :
    (Tcl_GetIndexFromObjStruct true objPtr tablePtr entries offset msg exact).errMsg
      = some ((if objPtr.bytes ≠ "" ∧ 1 < strictPrefixCount objPtr.bytes entries
            then "ambiguous " else "bad ")
          ++ msg ++ " \"" ++ objPtr.bytes ++ "\": must be " ++ renderMustBe entries) := by
  by_cases hmiss : fastPathMiss objPtr tablePtr offset
  · rw [match_eq_slow_of_miss true objPtr tablePtr entries offset msg exact hmiss] at h ⊢
    by_cases hk : objPtr.bytes = ""
    · rw [slowMatch_empty true objPtr tablePtr entries offset msg exact hk]
      simp [errorMessage_eq_render, hk]
    · cases hscan : scanEntries objPtr.bytes.data entries 0 0 (-1) with
      | exact i =>
        rw [slowMatch_scan_exact true objPtr tablePtr entries offset msg exact i hk hscan] at h
        exact absurd h (by simp [mkSuccess, TCL_OK, TCL_ERROR])
      | noExact nA idx =>
        by_cases hcond : (exact || nA != 1) = true
        · rw [slowMatch_scan_fail true objPtr tablePtr entries offset msg exact
            nA idx hk hscan hcond]
          have hnoex := scanEntries_noExact_inv objPtr.bytes.data entries 0 0 (-1) nA idx hscan
          obtain ⟨idx2, hscan2⟩ :=
            scanEntries_of_no_exact objPtr.bytes.data entries 0 0 (-1) hnoex
          rw [hscan] at hscan2
          have hnA : nA = strictPrefixCount objPtr.bytes entries := by
            have := (ScanResult.noExact.injEq _ _ _ _).mp hscan2
            rw [← abbrCount_eq_strictPrefixCount]
            omega
          simp [errorMessage_eq_render, hnA, hk]
        · rw [slowMatch_scan_ok true objPtr tablePtr entries offset msg exact
            nA idx hk hscan (by simpa using hcond)] at h
          exact absurd h (by simp [mkSuccess, TCL_OK, TCL_ERROR])
  · unfold fastPathMiss at hmiss
    push_neg at hmiss
    obtain ⟨rep, hrep, hcond⟩ := hmiss
    rw [match_eq_cached true objPtr tablePtr entries offset msg exact rep hrep hcond] at h
    exact absurd h (by simp [TCL_OK, TCL_ERROR])

theorem c4_witness :
    (Tcl_GetIndexFromObjStruct true ⟨"a", none⟩ 0 ["ab", "ac", "bd"] 1 "option" false).status
      = TCL_ERROR ∧
    (Tcl_GetIndexFromObjStruct true ⟨"a", none⟩ 0 ["ab", "ac", "bd"] 1 "option" false).errMsg
      = some ((if ("a" : String) ≠ "" ∧ 1 < strictPrefixCount "a" ["ab", "ac", "bd"]
            then "ambiguous " else "bad ")
          ++ "option" ++ " \"" ++ "a" ++ "\": must be " ++ renderMustBe ["ab", "ac", "bd"]) :=
  ⟨by decide, c4_error_message ⟨"a", none⟩ 0 ["ab", "ac", "bd"] 1 "option" false (by decide)⟩

/-- Claim C5: stringify renders exactly the canonical table entry at the
stored index, never the abbreviation the user typed; in particular after
matching "att" against the table attach, detach the match caches index 0
and the stringified form is "attach", not "att". -/
theorem c5_stringify_canonical (tables : Nat → List String) (rep : IndexRep)
    (h : rep.index < (tables rep.tablePtr).length) :
    UpdateStringOfIndex tables rep = (tables rep.tablePtr).get ⟨rep.index, h⟩ ∧
    (Tcl_GetIndexFromObjStruct true ⟨"att", none⟩ 5 ["attach", "detach"] 1 "cmd" false).status
      = TCL_OK ∧
    (Tcl_GetIndexFromObjStruct true ⟨"att", none⟩ 5
      ["attach", "detach"] 1 "cmd" false).obj.indexRep = some ⟨5, 1, 0⟩ ∧
    UpdateStringOfIndex (fun _ => ["attach", "detach"]) ⟨5, 1, 0⟩ = "attach" ∧
    ("attach" : String) ≠ "att" := by
  refine ⟨?_, by decide, by decide, by decide, by decide⟩
  unfold UpdateStringOfIndex
  exact getD_eq_get_of_lt (tables rep.tablePtr) "" rep.index h

theorem c5_witness :
    UpdateStringOfIndex (fun _ => ["attach", "detach"]) ⟨5, 1, 0⟩
      = (["attach", "detach"] : List String).get ⟨0, by decide⟩ :=
  (c5_stringify_canonical (fun _ => ["attach", "detach"]) ⟨5, 1, 0⟩ (by decide)).1

/-- The slow path never reads the stale cache record: its status, index,
message and scan behaviour depend only on the string form. -/
theorem slowMatch_rep_independent (interp : Bool) (b : String) (ro ro2 : Option IndexRep)
    (tablePtr : Nat) (entries : List String) (offset : Nat) (msg : String) (exact : Bool) :
    (slowMatch interp ⟨b, ro⟩ tablePtr entries offset msg exact).status
      = (slowMatch interp ⟨b, ro2⟩ tablePtr entries offset msg exact).status ∧
    (slowMatch interp ⟨b, ro⟩ tablePtr entries offset msg exact).indexOut
      = (slowMatch interp ⟨b, ro2⟩ tablePtr entries offset msg exact).indexOut ∧
    (slowMatch interp ⟨b, ro⟩ tablePtr entries offset msg exact).errMsg
      = (slowMatch interp ⟨b, ro2⟩ tablePtr entries offset msg exact).errMsg ∧
    (slowMatch interp ⟨b, ro⟩ tablePtr entries offset msg exact).scanned
      = (slowMatch interp ⟨b, ro2⟩ tablePtr entries offset msg exact).scanned := by
  by_cases hk : b = ""
  · rw [slowMatch_empty interp ⟨b, ro⟩ tablePtr entries offset msg exact hk,
      slowMatch_empty interp ⟨b, ro2⟩ tablePtr entries offset msg exact hk]
    exact ⟨rfl, rfl, rfl, rfl⟩
  · cases hscan : scanEntries b.data entries 0 0 (-1) with
    | exact i =>
      rw [slowMatch_scan_exact interp ⟨b, ro⟩ tablePtr entries offset msg exact i hk hscan,
        slowMatch_scan_exact interp ⟨b, ro2⟩ tablePtr entries offset msg exact i hk hscan]
      exact ⟨rfl, rfl, rfl, rfl⟩
    | noExact nA idx =>
      by_cases hcond : (exact || nA != 1) = true
      · rw [slowMatch_scan_fail interp ⟨b, ro⟩ tablePtr entries offset msg exact
          nA idx hk hscan hcond,
          slowMatch_scan_fail interp ⟨b, ro2⟩ tablePtr entries offset msg exact
          nA idx hk hscan hcond]
        exact ⟨rfl, rfl, rfl, rfl⟩
      · rw [slowMatch_scan_ok interp ⟨b, ro⟩ tablePtr entries offset msg exact
          nA idx hk hscan (by simpa using hcond),
          slowMatch_scan_ok interp ⟨b, ro2⟩ tablePtr entries offset msg exact
          nA idx hk hscan (by simpa using hcond)]
        exact ⟨rfl, rfl, rfl, rfl⟩

/-- With a non-empty key, the slow path always runs the scan loop. -/
theorem slowMatch_scanned_of_ne (interp : Bool) (objPtr : TclObj) (tablePtr : Nat)
    (entries : List String) (offset : Nat) (msg : String) (exact : Bool)
    (hk : objPtr.bytes ≠ "") :
    (slowMatch interp objPtr tablePtr entries offset msg exact).scanned = true := by
  cases hscan : scanEntries objPtr.bytes.data entries 0 0 (-1) with
  | exact i =>
    rw [slowMatch_scan_exact interp objPtr tablePtr entries offset msg exact i hk hscan]
    rfl
  | noExact nA idx =>
    by_cases hcond : (exact || nA != 1) = true
    · rw [slowMatch_scan_fail interp objPtr tablePtr entries offset msg exact
        nA idx hk hscan hcond]
    · rw [slowMatch_scan_ok interp objPtr tablePtr entries offset msg exact
        nA idx hk hscan (by simpa using hcond)]
      rfl

/-- Claim C3: after a successful call, a second call with the same
(table, stride) identity hits the cache: same index, no rescan and no
allocation. A call whose supplied identity differs from the stored one
never reuses the stored index: its status, index and message do not
depend on the stale record at all, and it rescans the supplied table
whenever the key is non-empty. -/
theorem c3_cache_identity (interp interp2 : Bool) (objPtr : TclObj) (tablePtr offset : Nat)
    (entries : List String) (msg msg2 : String) (exact exact2 : Bool)
    (h : (Tcl_GetIndexFromObjStruct interp objPtr tablePtr entries offset msg exact).status
      = TCL_OK) :
    ((Tcl_GetIndexFromObjStruct interp2
        (Tcl_GetIndexFromObjStruct interp objPtr tablePtr entries offset msg exact).obj
        tablePtr entries offset msg2 exact2).status = TCL_OK ∧
      (Tcl_GetIndexFromObjStruct interp2
        (Tcl_GetIndexFromObjStruct interp objPtr tablePtr entries offset msg exact).obj
        tablePtr entries offset msg2 exact2).indexOut
        = (Tcl_GetIndexFromObjStruct interp objPtr tablePtr entries offset msg exact).indexOut ∧
      (Tcl_GetIndexFromObjStruct interp2
        (Tcl_GetIndexFromObjStruct interp objPtr tablePtr entries offset msg exact).obj
        tablePtr entries offset msg2 exact2).scanned = false ∧
      (Tcl_GetIndexFromObjStruct interp2
        (Tcl_GetIndexFromObjStruct interp objPtr tablePtr entries offset msg exact).obj
        tablePtr entries offset msg2 exact2).allocated = false) ∧
    (∀ (tablePtr2 offset2 : Nat) (entries2 : List String) (r r2 : IndexRep),
      ¬(r.tablePtr = tablePtr2 ∧ r.offset = offset2) →
      ¬(r2.tablePtr = tablePtr2 ∧ r2.offset = offset2) →
      ((Tcl_GetIndexFromObjStruct interp2 ⟨objPtr.bytes, some r⟩ tablePtr2 entries2 offset2
          msg2 exact2).status
        = (Tcl_GetIndexFromObjStruct interp2 ⟨objPtr.bytes, some r2⟩ tablePtr2 entries2 offset2
          msg2 exact2).status ∧
       (Tcl_GetIndexFromObjStruct interp2 ⟨objPtr.bytes, some r⟩ tablePtr2 entries2 offset2
          msg2 exact2).indexOut
        = (Tcl_GetIndexFromObjStruct interp2 ⟨objPtr.bytes, some r2⟩ tablePtr2 entries2 offset2
          msg2 exact2).indexOut ∧
       (Tcl_GetIndexFromObjStruct interp2 ⟨objPtr.bytes, some r⟩ tablePtr2 entries2 offset2
          msg2 exact2).errMsg
        = (Tcl_GetIndexFromObjStruct interp2 ⟨objPtr.bytes, some r2⟩ tablePtr2 entries2 offset2
          msg2 exact2).errMsg ∧
       (objPtr.bytes ≠ "" →
        (Tcl_GetIndexFromObjStruct interp2 ⟨objPtr.bytes, some r⟩ tablePtr2 entries2 offset2
          msg2 exact2).scanned = true))) := by
  constructor
  · obtain ⟨i, hio, hrep⟩ :=
      match_success_shape interp objPtr tablePtr entries offset msg exact h
    rw [match_eq_cached interp2
      (Tcl_GetIndexFromObjStruct interp objPtr tablePtr entries offset msg exact).obj
      tablePtr entries offset msg2 exact2 ⟨tablePtr, offset, i⟩ hrep ⟨rfl, rfl⟩, hio]
    exact ⟨rfl, rfl, rfl, rfl⟩
  · intro tablePtr2 offset2 entries2 r r2 hr hr2
    have hm1 : fastPathMiss ⟨objPtr.bytes, some r⟩ tablePtr2 offset2 := by
      intro rep hrep
      cases Option.some.inj hrep
      exact hr
    have hm2 : fastPathMiss ⟨objPtr.bytes, some r2⟩ tablePtr2 offset2 := by
      intro rep hrep
      cases Option.some.inj hrep
      exact hr2
    rw [match_eq_slow_of_miss interp2 ⟨objPtr.bytes, some r⟩ tablePtr2 entries2 offset2
        msg2 exact2 hm1,
      match_eq_slow_of_miss interp2 ⟨objPtr.bytes, some r2⟩ tablePtr2 entries2 offset2
        msg2 exact2 hm2]
    obtain ⟨h1, h2, h3, _⟩ := slowMatch_rep_independent interp2 objPtr.bytes (some r) (some r2)
      tablePtr2 entries2 offset2 msg2 exact2
    exact ⟨h1, h2, h3, fun hk =>
      slowMatch_scanned_of_ne interp2 ⟨objPtr.bytes, some r⟩ tablePtr2 entries2 offset2
        msg2 exact2 hk⟩

theorem c3_witness :
    (Tcl_GetIndexFromObjStruct true
      (Tcl_GetIndexFromObjStruct true ⟨"att", none⟩ 5 ["attach", "detach"] 1 "cmd" false).obj
      5 ["attach", "detach"] 1 "cmd" false).scanned = false ∧
    (Tcl_GetIndexFromObjStruct true
      (Tcl_GetIndexFromObjStruct true ⟨"att", none⟩ 5 ["attach", "detach"] 1 "cmd" false).obj
      5 ["attach", "detach"] 1 "cmd" false).allocated = false ∧
    (Tcl_GetIndexFromObjStruct true ⟨"att", some ⟨5, 1, 0⟩⟩ 9 ["detach", "attach"] 1
      "cmd" false).indexOut
      = (Tcl_GetIndexFromObjStruct true ⟨"att", some ⟨7, 1, 1⟩⟩ 9 ["detach", "attach"] 1
      "cmd" false).indexOut ∧
    (Tcl_GetIndexFromObjStruct true ⟨"att", some ⟨5, 1, 0⟩⟩ 9 ["detach", "attach"] 1
      "cmd" false).scanned = true := by
  have h := c3_cache_identity true true ⟨"att", none⟩ 5 1 ["attach", "detach"]
    "cmd" "cmd" false false (by decide)
  have hb := h.2 9 1 ["detach", "attach"] ⟨5, 1, 0⟩ ⟨7, 1, 1⟩ (by decide) (by decide)
  exact ⟨h.1.2.2.1, h.1.2.2.2, hb.2.1, hb.2.2.2 (by decide)⟩

/-! Helper lemmas for the usage-message builder: the word lists and the
space-separated join. -/

theorem wordsFrom_false_append (q : Quoter) (tables : Nat → List String)
    (l1 l2 : List EmitItem) :
    wordsFrom q tables false (l1 ++ l2)
      = wordsFrom q tables false l1 ++ wordsFrom q tables false l2 := by
  induction l1 with
  | nil => rfl
  | cons x r ih => simp [wordsFrom, ih]

theorem wordsFrom_true_append (q : Quoter) (tables : Nat → List String)
    (l1 l2 : List EmitItem) (h : l1 ≠ []) :
    wordsFrom q tables true (l1 ++ l2)
      = wordsFrom q tables true l1 ++ wordsFrom q tables false l2 := by
  cases l1 with
  | nil => cases h rfl
  | cons x r => simp [wordsFrom, wordsFrom_false_append]

theorem wordsFrom_isEmpty (q : Quoter) (tables : Nat → List String) (isF : Bool)
    (l : List EmitItem) : (wordsFrom q tables isF l).isEmpty = l.isEmpty := by
  cases l <;> rfl

theorem joinWords_append (l1 l2 : List String) (h1 : l1 ≠ []) (h2 : l2 ≠ []) :
    joinWords (l1 ++ l2) = joinWords l1 ++ " " ++ joinWords l2 := by
  induction l1 with
  | nil => cases h1 rfl
  | cons w r ih =>
    cases r with
    | nil =>
      cases l2 with
      | nil => cases h2 rfl
      | cons w2 r2 => rfl
    | cons w2 r2 =>
      have hr : w2 :: r2 ≠ [] := by simp
      calc joinWords ((w :: w2 :: r2) ++ l2)
          = w ++ " " ++ joinWords ((w2 :: r2) ++ l2) := rfl
        _ = w ++ " " ++ (joinWords (w2 :: r2) ++ " " ++ joinWords l2) := by rw [ih hr]
        _ = joinWords (w :: w2 :: r2) ++ " " ++ joinWords l2 := by
            show _ = w ++ " " ++ joinWords (w2 :: r2) ++ " " ++ joinWords l2
            simp [String.append_assoc]

theorem appendArgWords_spec (q : Quoter) (tables : Nat → List String) :
    ∀ (l : List TclObj) (hasMsg : Bool) (acc : String) (isF : Bool),
      appendArgWords q tables l hasMsg acc isF
        = acc ++ joinWords (wordsFrom q tables isF (l.map EmitItem.arg))
          ++ (if hasMsg && !l.isEmpty then " " else "") := by
  intro l
  induction l with
  | nil =>
    intro hasMsg acc isF
    simp [appendArgWords, wordsFrom, joinWords]
  | cons o rest ih =>
    intro hasMsg acc isF
    cases rest with
    | nil =>
      cases hasMsg with
      | false => simp [appendArgWords, wordsFrom, joinWords, itemWord]
      | true => simp [appendArgWords, wordsFrom, joinWords, itemWord]
    | cons o2 r2 =>
      show appendArgWords q tables (o2 :: r2) hasMsg
          ((acc ++ argWord q tables isF o) ++ " ") false = _
      rw [ih hasMsg ((acc ++ argWord q tables isF o) ++ " ") false]
      simp [wordsFrom, joinWords, itemWord, String.append_assoc]

theorem appendSourceWords_spec (q : Quoter) (tables : Nat → List String) :
    ∀ (l : List TclObj) (more : Bool) (acc : String) (isF : Bool),
      (appendSourceWords q l more acc isF).1
        = acc ++ joinWords (wordsFrom q tables isF (l.map EmitItem.src))
          ++ (if more && !l.isEmpty then " " else "") ∧
      (appendSourceWords q l more acc isF).2 = (if l.isEmpty then isF else false) := by
  intro l
  induction l with
  | nil =>
    intro more acc isF
    constructor
    · simp [appendSourceWords, wordsFrom, joinWords]
    · rfl
  | cons o rest ih =>
    intro more acc isF
    cases rest with
    | nil =>
      constructor
      · cases more with
        | false => simp [appendSourceWords, wordsFrom, joinWords, itemWord]
        | true => simp [appendSourceWords, wordsFrom, joinWords, itemWord]
      · rfl
    | cons o2 r2 =>
      constructor
      · show (appendSourceWords q (o2 :: r2) more
            ((acc ++ quoteWord q isF o.bytes) ++ " ") false).1 = _
        rw [(ih more ((acc ++ quoteWord q isF o.bytes) ++ " ") false).1]
        simp [wordsFrom, joinWords, itemWord, String.append_assoc]
      · show (appendSourceWords q (o2 :: r2) more
            ((acc ++ quoteWord q isF o.bytes) ++ " ") false).2 = _
        rw [(ih more ((acc ++ quoteWord q isF o.bytes) ++ " ") false).2]
        rfl

theorem string_empty_append (s : String) : "" ++ s = s := by
  cases s with
  | mk d => rfl

/-- The whole builder in closed form: seed, the emitted words joined by
single spaces, the trailing-message part, and the closing quote. -/
theorem wrongNumArgs_spec (q : Quoter) (tables : Nat → List String) (ip : InterpState)
    (objv : List TclObj) (message : Option String) :
    Tcl_WrongNumArgs q tables ip objv message
      = seedOf ip ++ joinWords (wordsFrom q tables true (emitList ip objv))
        ++ msgTail message (wordsFrom q tables true (emitList ip objv)) ++ "\"" := by
  unfold Tcl_WrongNumArgs emitList
  cases hrw : ip.rewriteSourceObjs with
  | none =>
    cases message with
    | none =>
      cases objv with
      | nil =>
        simp [appendArgWords_spec q tables, msgTail, wordsFrom, joinWords]
      | cons o rest =>
        simp [appendArgWords_spec q tables, msgTail]
    | some m =>
      cases objv with
      | nil =>
        simp [appendArgWords_spec q tables, msgTail, wordsFrom, joinWords]
      | cons o rest =>
        simp [appendArgWords_spec q tables, msgTail, wordsFrom, joinWords,
          String.append_assoc]
  | some srcs =>
    by_cases hlen : ip.numInsertedObjs ≤ objv.length
    · simp only [hlen, if_true]
      obtain ⟨hfst, hsnd⟩ := appendSourceWords_spec q tables (srcs.take ip.numRemovedObjs)
        (!(objv.drop ip.numInsertedObjs).isEmpty || message.isSome) (seedOf ip) true
      cases hsrc : srcs.take ip.numRemovedObjs with
      | nil =>
        rw [hsrc] at hfst hsnd
        simp only [hfst, hsnd]
        cases message with
        | none =>
          cases hd : objv.drop ip.numInsertedObjs with
          | nil => simp [appendArgWords_spec q tables, msgTail, wordsFrom, joinWords]
          | cons o rest => simp [appendArgWords_spec q tables, msgTail, wordsFrom, joinWords]
        | some m =>
          cases hd : objv.drop ip.numInsertedObjs with
          | nil => simp [appendArgWords_spec q tables, msgTail, wordsFrom, joinWords]
          | cons o rest =>
            simp [appendArgWords_spec q tables, msgTail, wordsFrom, joinWords,
              String.append_assoc]
      | cons s ss =>
        rw [hsrc] at hfst hsnd
        simp only [hfst, hsnd]
        cases hd : objv.drop ip.numInsertedObjs with
        | nil =>
          have hW : wordsFrom q tables false (([] : List TclObj).map EmitItem.arg) = [] := rfl
          cases message with
          | none =>
            simp [appendArgWords_spec q tables, msgTail, wordsFrom, joinWords,
              String.append_assoc]
          | some m =>
            simp [appendArgWords_spec q tables, msgTail, wordsFrom_isEmpty, hW, joinWords,
              string_empty_append, String.append_assoc]
        | cons o rest =>
          have hsplit : wordsFrom q tables true (EmitItem.src s ::
                (List.map EmitItem.src ss ++ EmitItem.arg o :: List.map EmitItem.arg rest))
              = wordsFrom q tables true (EmitItem.src s :: List.map EmitItem.src ss)
                ++ wordsFrom q tables false (EmitItem.arg o :: List.map EmitItem.arg rest) := by
            have h := wordsFrom_true_append q tables
              (EmitItem.src s :: List.map EmitItem.src ss)
              (EmitItem.arg o :: List.map EmitItem.arg rest) (by simp)
            simpa using h
          have hjoin : joinWords
              (wordsFrom q tables true (EmitItem.src s :: List.map EmitItem.src ss)
                ++ wordsFrom q tables false (EmitItem.arg o :: List.map EmitItem.arg rest))
              = joinWords (wordsFrom q tables true
                  (EmitItem.src s :: List.map EmitItem.src ss)) ++ " "
                ++ joinWords (wordsFrom q tables false
                  (EmitItem.arg o :: List.map EmitItem.arg rest)) := by
            apply joinWords_append <;> simp [wordsFrom]
          cases message with
          | none =>
            simp [appendArgWords_spec q tables, msgTail, hsplit, hjoin,
              String.append_assoc]
          | some m =>
            have hne1 : wordsFrom q tables true
                (EmitItem.src s :: List.map EmitItem.src ss) ≠ [] := by simp [wordsFrom]
            simp [appendArgWords_spec q tables, msgTail, hsplit, hjoin, wordsFrom_isEmpty,
              hne1, String.append_assoc]
    · simp only [hlen, if_false]
      cases message with
      | none =>
        cases objv with
        | nil => simp [appendArgWords_spec q tables, msgTail, wordsFrom, joinWords]
        | cons o rest => simp [appendArgWords_spec q tables, msgTail]
      | some m =>
        cases objv with
        | nil => simp [appendArgWords_spec q tables, msgTail, wordsFrom, joinWords]
        | cons o rest =>
          simp [appendArgWords_spec q tables, msgTail, wordsFrom, joinWords,
            String.append_assoc]

theorem wordsFrom_false_arg (q : Quoter) (tables : Nat → List String) :
    ∀ l : List TclObj,
      wordsFrom q tables false (l.map EmitItem.arg) = l.map (argWord q tables false) := by
  intro l
  induction l with
  | nil => rfl
  | cons o rest ih => simp [wordsFrom, itemWord, ih]

/-- Claim C7, counterexample to the claim as stated: the very first
emitted word is never quoted (MAY_QUOTE_WORD is !isFirst, lines 452-462),
so an argument containing a space that is the first word appears
unquoted even though the collaborator demands quoting. -/
theorem c7_counterexample :
    spaceQuoter.needsQuoting "a b" = true ∧
    Tcl_WrongNumArgs spaceQuoter (fun _ => []) ⟨"", false, none, 0, 0⟩ [⟨"a b", none⟩] none
      = "wrong # args: should be \"a b\"" ∧
    Tcl_WrongNumArgs spaceQuoter (fun _ => []) ⟨"", false, none, 0, 0⟩ [⟨"a b", none⟩] none
      ≠ "wrong # args: should be \"" ++ spaceQuoter.quote "a b" ++ "\"" := by
  decide

/-- Claim C7 (amended: except for the very first emitted token, which is
never quoted regardless of its contents, for legacy Itcl compatibility):
an entry carrying a KeywordMatch cache emits the canonical stringified
table entry with quoting skipped unconditionally; every other entry after
the first emits its string form quoted exactly when the list-quoting
collaborator requires it; in particular a non-first argument containing a
space and not keyword-matched appears quoted. -/
theorem c7_arg_words (q : Quoter) (tables : Nat → List String) (ip : InterpState)
    (x : TclObj) (objv : List TclObj) (message : Option String)
    (hrw : ip.rewriteSourceObjs = none) :
    (Tcl_WrongNumArgs q tables ip (x :: objv) message
      = seedOf ip
        ++ joinWords (argWord q tables true x :: objv.map (argWord q tables false))
        ++ (match message with | none => "" | some m => " " ++ m) ++ "\"") ∧
    (∀ o : TclObj, argWord q tables false o
      = match o.indexRep with
        | some rep => (tables rep.tablePtr).getD rep.index ""
        | none => if q.needsQuoting o.bytes then q.quote o.bytes else o.bytes) ∧
    (∀ o : TclObj, argWord q tables true o
      = match o.indexRep with
        | some rep => (tables rep.tablePtr).getD rep.index ""
        | none => o.bytes) := by
  refine ⟨?_, ?_, ?_⟩
  · rw [wrongNumArgs_spec]
    simp [emitList, hrw, wordsFrom, itemWord, wordsFrom_false_arg, msgTail]
  · intro o
    cases ho : o.indexRep with
    | some rep => simp [argWord, ho]
    | none => simp [argWord, ho, quoteWord]
  · intro o
    cases ho : o.indexRep with
    | some rep => simp [argWord, ho]
    | none => simp [argWord, ho, quoteWord]

theorem c7_witness :
    (Tcl_WrongNumArgs spaceQuoter (fun _ => []) ⟨"", false, none, 0, 0⟩
        [⟨"x", none⟩, ⟨"a b", none⟩] none
      = seedOf ⟨"", false, none, 0, 0⟩
        ++ joinWords (argWord spaceQuoter (fun _ => []) true ⟨"x", none⟩
            :: [(⟨"a b", none⟩ : TclObj)].map (argWord spaceQuoter (fun _ => []) false))
        ++ "" ++ "\"") ∧
    Tcl_WrongNumArgs spaceQuoter (fun _ => []) ⟨"", false, none, 0, 0⟩
        [⟨"x", none⟩, ⟨"a b", none⟩] none
      = "wrong # args: should be \"x \x7ba b\x7d\"" :=
  ⟨(c7_arg_words spaceQuoter (fun _ => []) ⟨"", false, none, 0, 0⟩ ⟨"x", none⟩
      [⟨"a b", none⟩] none rfl).1,
    by decide⟩

/-- Claim C8: the message is seeded with the current error-channel
contents followed by a space, "or" and an opening quote when the
alternate flag is set, and with the literal wrong-number-of-arguments
prefix otherwise; emitted words are joined by single spaces, with a space
before the trailing message exactly when any word was emitted; a
non-NULL trailing message is appended verbatim with no quoting; the
message closes with a double quote; and the concrete scenario of the
spec produces exactly its stated text. -/
theorem c8_seed_join_scenario :
    (∀ (q : Quoter) (tables : Nat → List String) (ip : InterpState) (objv : List TclObj)
      (message : Option String),
      Tcl_WrongNumArgs q tables ip objv message
        = (if ip.altFlag then ip.result ++ " or \"" else "wrong # args: should be \"")
          ++ joinWords (wordsFrom q tables true (emitList ip objv))
          ++ msgTail message (wordsFrom q tables true (emitList ip objv)) ++ "\"") ∧
    Tcl_WrongNumArgs spaceQuoter (fun _ => []) ⟨"", false, none, 0, 0⟩
      [⟨"foo", none⟩, ⟨"bar", none⟩] (some "additional stuff")
      = "wrong # args: should be \"foo bar additional stuff\"" := by
  constructor
  · intro q tables ip objv message
    rw [wrongNumArgs_spec]
    rfl
  · decide

/-- Claim C9: with a rewrite context present and at least as many
arguments as the synthesized-leading count, the builder drops that many
leading arguments and emits in their place the string forms of the
substitute-leading-count source arguments in order, quoted per the
collaborator except for the very first token emitted overall (never
quoted under the legacy compatibility mode), with single spaces and a
space before the trailing message exactly when words were emitted; with
fewer arguments than the synthesized-leading count, no substitution or
dropping occurs. -/
theorem c9_rewrite_splice (q : Quoter) (tables : Nat → List String) (ip : InterpState)
    (objv : List TclObj) (message : Option String) (srcs : List TclObj)
    (hrw : ip.rewriteSourceObjs = some srcs) :
    (ip.numInsertedObjs ≤ objv.length →
      Tcl_WrongNumArgs q tables ip objv message
        = seedOf ip ++ joinWords (wordsFrom q tables true
            ((srcs.take ip.numRemovedObjs).map EmitItem.src
              ++ (objv.drop ip.numInsertedObjs).map EmitItem.arg))
          ++ msgTail message (wordsFrom q tables true
            ((srcs.take ip.numRemovedObjs).map EmitItem.src
              ++ (objv.drop ip.numInsertedObjs).map EmitItem.arg)) ++ "\"") ∧
    (objv.length < ip.numInsertedObjs →
      Tcl_WrongNumArgs q tables ip objv message
        = seedOf ip ++ joinWords (wordsFrom q tables true (objv.map EmitItem.arg))
          ++ msgTail message (wordsFrom q tables true (objv.map EmitItem.arg)) ++ "\"") ∧
    (∀ (o : TclObj) (isF : Bool), itemWord q tables isF (EmitItem.src o)
        = if !isF && q.needsQuoting o.bytes then q.quote o.bytes else o.bytes) := by
  refine ⟨?_, ?_, fun o isF => rfl⟩
  · intro hlen
    rw [wrongNumArgs_spec]
    simp [emitList, hrw, hlen]
  · intro hlen
    have hnot : ¬ ip.numInsertedObjs ≤ objv.length := by omega
    rw [wrongNumArgs_spec]
    simp [emitList, hrw, hnot]

theorem c9_witness :
    (Tcl_WrongNumArgs spaceQuoter (fun _ => [])
        ⟨"", false, some [⟨"a b", none⟩, ⟨"c d", none⟩], 2, 1⟩
        [⟨"cmd", none⟩, ⟨"extra", none⟩] none
      = seedOf ⟨"", false, some [⟨"a b", none⟩, ⟨"c d", none⟩], 2, 1⟩
        ++ joinWords (wordsFrom spaceQuoter (fun _ => []) true
            ((([⟨"a b", none⟩, ⟨"c d", none⟩] : List TclObj).take 2).map EmitItem.src
              ++ (([⟨"cmd", none⟩, ⟨"extra", none⟩] : List TclObj).drop 1).map EmitItem.arg))
        ++ msgTail none (wordsFrom spaceQuoter (fun _ => []) true
            ((([⟨"a b", none⟩, ⟨"c d", none⟩] : List TclObj).take 2).map EmitItem.src
              ++ (([⟨"cmd", none⟩, ⟨"extra", none⟩] : List TclObj).drop 1).map EmitItem.arg))
        ++ "\"") ∧
    Tcl_WrongNumArgs spaceQuoter (fun _ => [])
        ⟨"", false, some [⟨"a b", none⟩, ⟨"c d", none⟩], 2, 1⟩
        [⟨"cmd", none⟩, ⟨"extra", none⟩] none
      = "wrong # args: should be \"a b \x7bc d\x7d extra\"" :=
  ⟨(c9_rewrite_splice spaceQuoter (fun _ => [])
      ⟨"", false, some [⟨"a b", none⟩, ⟨"c d", none⟩], 2, 1⟩
      [⟨"cmd", none⟩, ⟨"extra", none⟩] none [⟨"a b", none⟩, ⟨"c d", none⟩] rfl).1
      (by decide),
    by decide⟩
